import Mathlib

/-!
Verification of the expression-evaluator core of the ETL library.

The development is a shallow embedding of the evaluator sources:
* `eval_functors.hpp`: the scalar functors (`Assign`, `AssignAdd`, `AssignSub`,
  `AssignMul`, `AssignDiv`) and the vectorized functors
  (`vectorized_base::operator()`, `peel_loop`, `aligned_main_loop`,
  `unaligned_main_loop`, `remainder_loop`).
* `evaluator.hpp`: the strategy entry points (`standard`, `fast`, `direct`,
  `vectorized`, `parallel`, `parallel_vectorized`), the parallel partitioning
  into `threads` contiguous chunks, and `standard_evaluator::assign_evaluate`
  with its aliasing-materialization guard.
* `dyn_base.hpp`: the `alias` overlap test over `[memory_start, memory_end)`.
* `gpu_memory_handler` (CUDA coherence handler): `ensure_cpu_up_to_date`.

Memory is modelled as a total function `Nat → α` (flat element index to value);
pointer addresses used for alignment checks are modelled as byte addresses
(`Nat`), with element `i` of a buffer based at `addr` living at byte
`addr + esz * i`.  Lane (SIMD) loads/stores are bit-identical to elementwise
scalar operations on the same indices, so a lane store of width `w` at index
`i` is modelled as the elementwise update of indices `i, …, i+w-1`; aligned and
unaligned stores differ only in performance, not in the values written.
-/

namespace EtlVerify

/-- Write value `v` at index `i` of memory `f`. -/
def upd {α : Type} (f : Nat → α) (i : Nat) (v : α) : Nat → α :=
  fun j => if j = i then v else f j

/-- Sequential elementwise combine loop: for `k` in `[first, first+count)`,
`lhs[k] = op lhs[k] rhs[k]`.  With `op = fun _ b => b` this is the plain
assignment loop `lhs[k] = rhs[k]`; with `op = (+)` it is `lhs[k] += rhs[k]`,
etc.  This models every scalar loop of the evaluator functors. -/
def updRange {α : Type} (op : α → α → α) (lhs rhs : Nat → α) (first count : Nat) : Nat → α :=
  match count with
  | 0 => lhs
  | k + 1 => updRange op (upd lhs first (op (lhs first) (rhs first))) rhs (first + 1) k

/-- The combine function of plain assignment: the stored value is the
right-hand-side value (`lhs[i] = rhs[i]`, ignoring the old value). -/
def setv {α : Type} : α → α → α := fun _ b => b

/-- Blocks of `len` consecutive elementwise operations, `b` blocks starting at
`first`.  One block models one iteration of an unrolled loop (4 scalar writes,
or 1 or 4 lane stores of width `lanes`). -/
def updBlocks {α : Type} (op : α → α → α) (len : Nat) (lhs rhs : Nat → α) (first b : Nat) :
    Nat → α :=
  match b with
  | 0 => lhs
  | k + 1 => updBlocks op len (updRange op lhs rhs first len) rhs (first + len) k

/-- The scalar evaluator functors `Assign` / `AssignAdd` / `AssignSub` /
`AssignMul` / `AssignDiv` `operator()` over `[first, last)` (they differ only in
the combine `op`).  With `unroll_normal_loops` set, the loop first processes
`size & ~3` elements in blocks of four writes (`iend = first + (size & -4)`)
and then finishes scalarly from `iend` to `last`; otherwise it is a single
scalar loop. -/
def scalar_functor {α : Type} (op : α → α → α) (unroll : Bool) (lhs rhs : Nat → α)
    (first last : Nat) : Nat → α :=
  let size := last - first
  if unroll then
    let blocks := size / 4
    let iend := first + 4 * blocks
    updRange op (updBlocks op 4 lhs rhs first blocks) rhs iend (last - iend)
  else
    updRange op lhs rhs first size

/-- Platform parameters of the vectorized functors: `lanes` is `IT::size`
(elements per vector register), `esz` is `sizeof(value_type)` in bytes, `algn`
is `IT::alignment` in bytes, `unroll` is `unroll_vectorized_loops`. -/
structure VecCfg where
  lanes : Nat
  esz : Nat
  algn : Nat
  unroll : Bool

/-- Number of elements peeled by `peel_loop` for a chunk starting at element
index `first` of a buffer based at byte address `addr`, with `size` elements in
the chunk.  Source: `u_bytes = (lhs_m + _first) % alignment`; if
`u_bytes >= sizeof(T) && u_bytes % sizeof(T) == 0` then
`u_loads = min(u_bytes / sizeof(T), _size)` elements are processed scalarly,
else none. -/
def peel_loop (cfg : VecCfg) (addr first size : Nat) : Nat :=
  let ub := (addr + cfg.esz * first) % cfg.algn
  if cfg.esz ≤ ub ∧ ub % cfg.esz = 0 then min (ub / cfg.esz) size else 0

/-- The index at which the main vectorized loop stops (the value of `i`
returned by `aligned_main_loop` / `unaligned_main_loop` when started at
`first`): with unrolling and more than `4 * lanes` remaining elements the loop
steps by `4 * lanes` while `i + 4*lanes - 1 < last`, otherwise it steps by
`lanes` while `i + lanes - 1 < last`. -/
def main_loop_end (cfg : VecCfg) (first last : Nat) : Nat :=
  if cfg.unroll ∧ 4 * cfg.lanes < last - first then
    first + 4 * cfg.lanes * ((last - first) / (4 * cfg.lanes))
  else
    first + cfg.lanes * ((last - first) / cfg.lanes)

/-- Source `aligned_main_loop` of the vectorized functors: full lane stores (aligned
`store`) from `first` as long as a full block fits; each lane store of width
`lanes` writes `op lhs[k] rhs[k]` at indices `k` in the lane. -/
def aligned_main_loop {α : Type} (op : α → α → α) (cfg : VecCfg) (lhs rhs : Nat → α)
    (first last : Nat) : Nat → α :=
  if cfg.unroll ∧ 4 * cfg.lanes < last - first then
    updBlocks op (4 * cfg.lanes) lhs rhs first ((last - first) / (4 * cfg.lanes))
  else
    updBlocks op cfg.lanes lhs rhs first ((last - first) / cfg.lanes)

/-- Source `unaligned_main_loop`: same loop with unaligned stores (`storeu`); an
unaligned store writes the same values as an aligned one, so the embedding is
the same function. -/
def unaligned_main_loop {α : Type} (op : α → α → α) (cfg : VecCfg) (lhs rhs : Nat → α)
    (first last : Nat) : Nat → α :=
  if cfg.unroll ∧ 4 * cfg.lanes < last - first then
    updBlocks op (4 * cfg.lanes) lhs rhs first ((last - first) / (4 * cfg.lanes))
  else
    updBlocks op cfg.lanes lhs rhs first ((last - first) / cfg.lanes)

/-- Source `remainder_loop`: scalar tail from `first` to `last`. -/
def remainder_loop {α : Type} (op : α → α → α) (lhs rhs : Nat → α) (first last : Nat) :
    Nat → α :=
  updRange op lhs rhs first (last - first)

/-- The alignment test of `vectorized_base::operator()` before the main loop:
`(lhs_m + _first + peeled) % IT::alignment == 0`, where `f = _first + peeled`. -/
def main_aligned (cfg : VecCfg) (addr f : Nat) : Bool :=
  decide ((addr + cfg.esz * f) % cfg.algn = 0)

/-- Source `vectorized_base::operator()` over chunk `[first, last)`: peel, then (if at
least one full lane remains, `_size - peeled >= IT::size`) the aligned or
unaligned main loop depending on the alignment of the post-peel write pointer,
then the scalar remainder from the index where the main loop stopped. -/
def vectorized_functor {α : Type} (op : α → α → α) (cfg : VecCfg) (addr : Nat)
    (lhs rhs : Nat → α) (first last : Nat) : Nat → α :=
  let size := last - first
  let peeled := peel_loop cfg addr first size
  let lhs1 := updRange op lhs rhs first peeled
  if cfg.lanes ≤ size - peeled then
    let f := first + peeled
    let lhs2 :=
      if main_aligned cfg addr f then aligned_main_loop op cfg lhs1 rhs f last
      else unaligned_main_loop op cfg lhs1 rhs f last
    remainder_loop op lhs2 rhs (main_loop_end cfg f last) last
  else
    remainder_loop op lhs1 rhs (first + peeled) last

/-- Phase boundaries of one invocation of the vectorized functor on
`[first, last)`: `peel` elements are peeled, the main loop (if it runs at all,
`hasMain`) covers `[mainStart, mainEnd)` with aligned stores iff `aligned`,
and the remainder covers `[mainEnd, last)`. -/
structure VecPhases where
  peel : Nat
  mainStart : Nat
  mainEnd : Nat
  hasMain : Bool
  aligned : Bool

/-- Phase decomposition computed by `vectorized_base::operator()`. -/
def vec_phases (cfg : VecCfg) (addr first last : Nat) : VecPhases :=
  let size := last - first
  let peeled := peel_loop cfg addr first size
  let f := first + peeled
  if cfg.lanes ≤ size - peeled then
    ⟨peeled, f, main_loop_end cfg f last, true, main_aligned cfg addr f⟩
  else
    ⟨peeled, f, f, false, main_aligned cfg addr f⟩

/-- Whether the aligned main loop ran in this invocation. -/
def ran_aligned (p : VecPhases) : Bool := p.hasMain && p.aligned

/-- Whether the unaligned main loop ran in this invocation. -/
def ran_unaligned (p : VecPhases) : Bool := p.hasMain && !p.aligned

/-- Start of chunk `t` of the parallel partition of `[0, n)` over `threads`
workers: `t * batch` with `batch = n / threads` (source: the loop
`pool.do_task(... t * batch, (t+1) * batch)` plus the caller chunk
`(threads - 1) * batch, n`). -/
def chunk_start (n threads t : Nat) : Nat := t * (n / threads)

/-- End of chunk `t`: `(t+1) * batch` for the `threads - 1` pool chunks, and
`n` for the final chunk executed by the calling thread. -/
def chunk_end (n threads t : Nat) : Nat :=
  if t = threads - 1 then n else (t + 1) * (n / threads)

/-- Membership of flat index `j` in chunk `t`. -/
def in_chunk (n threads t j : Nat) : Prop :=
  chunk_start n threads t ≤ j ∧ j < chunk_end n threads t

/-- The chunk that owns index `j` (a witness function for partition coverage,
not part of the source: the source's chunks are produced by the dispatch loop
above). -/
def chunk_index (n threads j : Nat) : Nat :=
  let batch := n / threads
  if batch = 0 ∨ threads - 1 ≤ j / batch then threads - 1 else j / batch

/-- Sequential execution of the first `t` pool chunks: chunk `k` runs
`run state (k * batch) ((k+1) * batch)`.  The source submits these chunks to a
thread pool; since the chunks are pairwise disjoint index ranges and each
functor only writes inside its own range, the concurrent execution is
equivalent to this sequential model. -/
def run_chunks {α : Type} (run : (Nat → α) → Nat → Nat → Nat → α) (lhs : Nat → α)
    (batch : Nat) : Nat → Nat → α
  | 0 => lhs
  | t + 1 => run (run_chunks run lhs batch t) (t * batch) ((t + 1) * batch)

/-- The guard of the parallel strategies: the pool is used unless
`n < parallel_threshold || threads < 2` (in which case the single-threaded
strategy runs instead). -/
def uses_parallel (n threads threshold : Nat) : Bool :=
  if n < threshold ∨ threads < 2 then false else true

/-- The standard evaluator loop (`standard_assign` / `standard_compound`
versions of `assign_evaluate_impl` / `add_evaluate` / ...):
`for i < size: result[i] = op result[i] expr[i]`. -/
def standard_evaluate {α : Type} (op : α → α → α) (expr result : Nat → α) (n : Nat) :
    Nat → α :=
  updRange op result expr 0 n

/-- Source `direct_assign_evaluate` / `direct_add_evaluate` / ...: the scalar functor
over the whole range `[0, size)` of the result's direct memory. -/
def direct_evaluate {α : Type} (op : α → α → α) (unroll : Bool) (expr result : Nat → α)
    (n : Nat) : Nat → α :=
  scalar_functor op unroll result expr 0 n

/-- Source `vectorized_assign_evaluate` / `vectorized_add_evaluate` / ...: the
vectorized functor over `[0, size)`. -/
def vectorized_evaluate {α : Type} (op : α → α → α) (cfg : VecCfg) (addr : Nat)
    (expr result : Nat → α) (n : Nat) : Nat → α :=
  vectorized_functor op cfg addr result expr 0 n

/-- The parallel scalar strategy (`parallel_assign` / `parallel_compound`
versions of `assign_evaluate_impl` / `add_evaluate` / ...): if
`n < parallel_threshold || threads < 2` fall back to the direct strategy;
otherwise split `[0, n)` into `threads` chunks of `batch = n / threads`
elements, run `threads - 1` of them on the pool and the final chunk
`[(threads-1)*batch, n)` on the calling thread. -/
def parallel_evaluate {α : Type} (op : α → α → α) (unroll : Bool) (threads threshold : Nat)
    (expr result : Nat → α) (n : Nat) : Nat → α :=
  if n < threshold ∨ threads < 2 then scalar_functor op unroll result expr 0 n
  else
    let batch := n / threads
    scalar_functor op unroll
      (run_chunks (fun s a b => scalar_functor op unroll s expr a b) result batch (threads - 1))
      expr ((threads - 1) * batch) n

/-- The parallel vectorized strategy (`parallel_vectorized_assign` /
`parallel_vectorized_compound`): same partition, each chunk executed by the
vectorized functor (all chunks share the result's base address `addr`). -/
def parallel_vectorized_evaluate {α : Type} (op : α → α → α) (cfg : VecCfg)
    (addr threads threshold : Nat) (expr result : Nat → α) (n : Nat) : Nat → α :=
  if n < threshold ∨ threads < 2 then vectorized_functor op cfg addr result expr 0 n
  else
    let batch := n / threads
    vectorized_functor op cfg addr
      (run_chunks (fun s a b => vectorized_functor op cfg addr s expr a b) result batch
        (threads - 1))
      expr ((threads - 1) * batch) n

/-- Source `assign_evaluate_impl` chosen by `standard_assign`:
`result[i] = expr.read_flat(i)`. -/
def standard_assign_evaluate {α : Type} (expr result : Nat → α) (n : Nat) : Nat → α :=
  standard_evaluate setv expr result n

/-- Source `assign_evaluate_impl` chosen by `fast_assign`:
`std::copy(expr.memory_start(), expr.memory_end(), result.memory_start())`,
i.e. the sequential elementwise copy of the `n` stored values. -/
def fast_assign_evaluate {α : Type} (expr result : Nat → α) (n : Nat) : Nat → α :=
  updRange setv result expr 0 n

/-- Source `direct_assign_evaluate`. -/
def direct_assign_evaluate {α : Type} (unroll : Bool) (expr result : Nat → α) (n : Nat) :
    Nat → α :=
  direct_evaluate setv unroll expr result n

/-- Source `vectorized_assign_evaluate`. -/
def vectorized_assign_evaluate {α : Type} (cfg : VecCfg) (addr : Nat) (expr result : Nat → α)
    (n : Nat) : Nat → α :=
  vectorized_evaluate setv cfg addr expr result n

/-- Source `assign_evaluate_impl` chosen by `parallel_assign`. -/
def parallel_assign_evaluate {α : Type} (unroll : Bool) (threads threshold : Nat)
    (expr result : Nat → α) (n : Nat) : Nat → α :=
  parallel_evaluate setv unroll threads threshold expr result n

/-- Source `assign_evaluate_impl` chosen by `parallel_vectorized_assign`. -/
def parallel_vectorized_assign_evaluate {α : Type} (cfg : VecCfg) (addr threads threshold : Nat)
    (expr result : Nat → α) (n : Nat) : Nat → α :=
  parallel_vectorized_evaluate setv cfg addr threads threshold expr result n

/-- The in-place standard assignment loop when the expression may read the
destination's own storage: `result[i] = expr.read_flat(i)` where `read_flat`
consults the current (partially overwritten) contents.  An expression is a
function from the destination storage contents to flat values. -/
def assign_loop_inplace {α : Type} (expr : (Nat → α) → Nat → α) (σ : Nat → α) (i count : Nat) :
    Nat → α :=
  match count with
  | 0 => σ
  | k + 1 => assign_loop_inplace expr (upd σ i (expr σ i)) (i + 1) k

/-- Evaluation of the expression into a freshly allocated temporary: writes go
to the temporary `τ`, while the expression keeps reading the destination
storage `σ`, which the loop never modifies. -/
def assign_loop_to_temp {α : Type} (expr : (Nat → α) → Nat → α) (σ τ : Nat → α) (i count : Nat) :
    Nat → α :=
  match count with
  | 0 => τ
  | k + 1 => assign_loop_to_temp expr σ (upd τ i (expr σ i)) (i + 1) k

/-- Source `standard_evaluator::assign_evaluate` (non-temporary expression case):
after forcing sub-expressions, if the expression is not linear and aliases the
result, materialize through a temporary of the result's type
(`force_temporary(result)` copies the result, `assign_evaluate_impl(expr, tmp)`
evaluates into it, `assign_evaluate_impl(tmp, result)` copies it back);
otherwise evaluate in place. -/
def assign_evaluate {α : Type} (linear aliased : Bool) (expr : (Nat → α) → Nat → α)
    (σ : Nat → α) (n : Nat) : Nat → α :=
  if !linear && aliased then
    updRange setv σ (assign_loop_to_temp expr σ σ 0 n) 0 n
  else
    assign_loop_inplace expr σ 0 n

/-- Specification-side definition (the spec's words, for comparison with the
source-derived `assign_evaluate`): evaluate the expression into a freshly
allocated temporary against the destination's original contents, then copy the
temporary into the destination. -/
def fresh_temp_spec {α : Type} (expr : (Nat → α) → Nat → α) (σ : Nat → α) (n : Nat) :
    Nat → α :=
  fun j => if j < n then expr σ j else σ j

/-- The `read_flat` of `transpose(R)` where `R` is a row-major `N × N` matrix over
storage `σ`: flat index `i = r*N + c` reads `R(c, r) = σ (c*N + r)`. -/
def transpose_read_flat {α : Type} (N : Nat) : (Nat → α) → Nat → α :=
  fun σ i => σ (i % N * N + i / N)

/-- The per-container GPU coherence handler (`gpu_memory_handler`): an optional
device allocation with its contents, and the two freshness flags. -/
structure GpuMemoryHandler (α : Type) where
  gpuMemory : Option (Nat → α)
  cpuUpToDate : Bool
  gpuUpToDate : Bool

/-- Result of a coherence operation: the new handler state, the new host
memory, and the number of device-to-host transfers performed. -/
structure CoherenceResult (α : Type) where
  handler : GpuMemoryHandler α
  cpu : Nat → α
  transfers : Nat

/-- Source `gpu_memory_handler::ensure_cpu_up_to_date(cpu_memory, etl_size)`: if the
host copy is not fresh, `gpu_to_cpu` copies the `n` device elements to host and
sets `cpu_up_to_date = true` (leaving `gpu_up_to_date` unchanged); otherwise
nothing happens.  The `none` branch (device memory absent while the host is
stale) is unreachable in the source: `gpu_to_cpu` asserts
`is_gpu_allocated()` and `gpu_up_to_date`. -/
def ensure_cpu_up_to_date {α : Type} (h : GpuMemoryHandler α) (cpu : Nat → α) (n : Nat) :
    CoherenceResult α :=
  if h.cpuUpToDate then ⟨h, cpu, 0⟩
  else
    match h.gpuMemory with
    | some g => ⟨⟨h.gpuMemory, true, h.gpuUpToDate⟩, fun j => if j < n then g j else cpu j, 1⟩
    | none => ⟨h, cpu, 0⟩

/-- A dense container's contiguous storage: `memory_start()` is `start` (as a
byte-free abstract address) and `memory_end()` is `start + size`. -/
structure DenseStorage where
  start : Nat
  size : Nat

/-- Modelled from the spec: the helper `memory_alias(a_begin, a_end, b_begin,
b_end)` called by `dense_dyn_base::alias` is not among the provided sources;
the spec describes `alias(other)` as the overlap test of the two contiguous
half-open memory ranges, so it is modelled as exactly that test. -/
def memory_alias (aStart aEnd bStart bEnd : Nat) : Bool :=
  decide (max aStart bStart < min aEnd bEnd)

/-- Source `dense_dyn_base::alias` for two direct-memory containers:
`memory_alias(memory_start(), memory_end(), rhs.memory_start(),
rhs.memory_end())`. -/
def dense_alias (a b : DenseStorage) : Bool :=
  memory_alias a.start (a.start + a.size) b.start (b.start + b.size)

end EtlVerify

namespace EtlVerify

theorem upd_apply {α : Type} (f : Nat → α) (i : Nat) (v : α) (j : Nat) :
    upd f i v j = if j = i then v else f j := rfl

theorem updRange_apply {α : Type} (op : α → α → α) (lhs rhs : Nat → α) (first count j : Nat) :
    updRange op lhs rhs first count j =
      if first ≤ j ∧ j < first + count then op (lhs j) (rhs j) else lhs j := by
  induction count generalizing lhs first with
  | zero =>
    simp only [updRange]
    rw [if_neg (by omega)]
  | succ k ih =>
    simp only [updRange]
    rw [ih]
    by_cases hj : j = first
    · subst hj
      rw [if_neg (by omega), if_pos (by omega)]
      simp [upd]
    · simp only [upd, if_neg hj]
      split_ifs <;> first | rfl | (exfalso; omega)

theorem updBlocks_apply {α : Type} (op : α → α → α) (len : Nat) (lhs rhs : Nat → α)
    (first b j : Nat) :
    updBlocks op len lhs rhs first b j =
      if first ≤ j ∧ j < first + len * b then op (lhs j) (rhs j) else lhs j := by
  induction b generalizing lhs first with
  | zero =>
    simp only [updBlocks, Nat.mul_zero, Nat.add_zero]
    rw [if_neg (by omega)]
  | succ b ih =>
    simp only [updBlocks]
    rw [ih, Nat.mul_succ]
    simp only [updRange_apply]
    split_ifs <;> first | rfl | (exfalso; omega)

theorem scalar_functor_apply {α : Type} (op : α → α → α) (unroll : Bool) (lhs rhs : Nat → α)
    (first last j : Nat) :
    scalar_functor op unroll lhs rhs first last j =
      if first ≤ j ∧ j < last then op (lhs j) (rhs j) else lhs j := by
  by_cases hu : unroll = true
  · simp only [scalar_functor]
    rw [if_pos hu, updRange_apply, updBlocks_apply]
    split_ifs <;> first | rfl | (exfalso; omega)
  · simp only [scalar_functor]
    rw [if_neg hu, updRange_apply]
    split_ifs <;> first | rfl | (exfalso; omega)

theorem peel_loop_le (cfg : VecCfg) (addr first size : Nat) :
    peel_loop cfg addr first size ≤ size := by
  simp only [peel_loop]
  split_ifs
  · exact Nat.min_le_right _ _
  · exact Nat.zero_le _

theorem main_loop_end_ge (cfg : VecCfg) (first last : Nat) :
    first ≤ main_loop_end cfg first last := by
  simp only [main_loop_end]
  split_ifs <;> omega

theorem main_loop_end_le (cfg : VecCfg) (first last : Nat) :
    main_loop_end cfg first last ≤ first + (last - first) := by
  simp only [main_loop_end]
  split_ifs with h
  · have h2 : 4 * cfg.lanes * ((last - first) / (4 * cfg.lanes)) ≤ last - first := by
      rw [Nat.mul_comm]
      exact Nat.div_mul_le_self (last - first) (4 * cfg.lanes)
    omega
  · have h2 : cfg.lanes * ((last - first) / cfg.lanes) ≤ last - first := by
      rw [Nat.mul_comm]
      exact Nat.div_mul_le_self (last - first) cfg.lanes
    omega

theorem unaligned_main_loop_eq {α : Type} (op : α → α → α) (cfg : VecCfg) (lhs rhs : Nat → α)
    (first last : Nat) :
    unaligned_main_loop op cfg lhs rhs first last = aligned_main_loop op cfg lhs rhs first last :=
  rfl

theorem aligned_main_loop_apply {α : Type} (op : α → α → α) (cfg : VecCfg) (lhs rhs : Nat → α)
    (first last j : Nat) :
    aligned_main_loop op cfg lhs rhs first last j =
      if first ≤ j ∧ j < main_loop_end cfg first last then op (lhs j) (rhs j) else lhs j := by
  by_cases hg : cfg.unroll = true ∧ 4 * cfg.lanes < last - first
  · have h1 : aligned_main_loop op cfg lhs rhs first last j =
        updBlocks op (4 * cfg.lanes) lhs rhs first ((last - first) / (4 * cfg.lanes)) j := by
      simp only [aligned_main_loop]
      rw [if_pos hg]
    have h2 : main_loop_end cfg first last =
        first + 4 * cfg.lanes * ((last - first) / (4 * cfg.lanes)) := by
      simp only [main_loop_end]
      rw [if_pos hg]
    rw [h1, updBlocks_apply]
    simp only [h2]
  · have h1 : aligned_main_loop op cfg lhs rhs first last j =
        updBlocks op cfg.lanes lhs rhs first ((last - first) / cfg.lanes) j := by
      simp only [aligned_main_loop]
      rw [if_neg hg]
    have h2 : main_loop_end cfg first last =
        first + cfg.lanes * ((last - first) / cfg.lanes) := by
      simp only [main_loop_end]
      rw [if_neg hg]
    rw [h1, updBlocks_apply]
    simp only [h2]

theorem main_dispatch_eq {α : Type} (op : α → α → α) (cfg : VecCfg) (b : Bool)
    (lhs rhs : Nat → α) (first last : Nat) :
    (if b = true then aligned_main_loop op cfg lhs rhs first last
     else unaligned_main_loop op cfg lhs rhs first last) =
      aligned_main_loop op cfg lhs rhs first last := by
  cases b <;> simp [unaligned_main_loop_eq]

theorem vectorized_functor_apply {α : Type} (op : α → α → α) (cfg : VecCfg) (addr : Nat)
    (lhs rhs : Nat → α) (first last j : Nat) :
    vectorized_functor op cfg addr lhs rhs first last j =
      if first ≤ j ∧ j < last then op (lhs j) (rhs j) else lhs j := by
  have hp : peel_loop cfg addr first (last - first) ≤ last - first := peel_loop_le cfg addr first _
  simp only [vectorized_functor]
  by_cases hm : cfg.lanes ≤ (last - first) - peel_loop cfg addr first (last - first)
  · rw [if_pos hm, main_dispatch_eq]
    have he1 := main_loop_end_ge cfg (first + peel_loop cfg addr first (last - first)) last
    have he2 := main_loop_end_le cfg (first + peel_loop cfg addr first (last - first)) last
    simp only [remainder_loop]
    rw [updRange_apply, aligned_main_loop_apply, updRange_apply]
    split_ifs <;> first | rfl | (exfalso; omega)
  · rw [if_neg hm]
    simp only [remainder_loop]
    rw [updRange_apply, updRange_apply]
    split_ifs <;> first | rfl | (exfalso; omega)

theorem run_chunks_apply {α : Type} (op : α → α → α) (rhs : Nat → α)
    (run : (Nat → α) → Nat → Nat → Nat → α)
    (hrun : ∀ s a b k, run s a b k = if a ≤ k ∧ k < b then op (s k) (rhs k) else s k)
    (lhs : Nat → α) (batch t j : Nat) :
    run_chunks run lhs batch t j = if j < t * batch then op (lhs j) (rhs j) else lhs j := by
  induction t with
  | zero =>
    simp only [run_chunks, Nat.zero_mul]
    rw [if_neg (by omega)]
  | succ t ih =>
    simp only [run_chunks]
    rw [hrun, ih]
    simp only [Nat.succ_mul]
    split_ifs <;> first | rfl | (exfalso; omega)

theorem parallel_evaluate_apply {α : Type} (op : α → α → α) (unroll : Bool)
    (threads threshold : Nat) (expr result : Nat → α) (n j : Nat) :
    parallel_evaluate op unroll threads threshold expr result n j =
      if j < n then op (result j) (expr j) else result j := by
  simp only [parallel_evaluate]
  by_cases hg : n < threshold ∨ threads < 2
  · rw [if_pos hg, scalar_functor_apply]
    split_ifs <;> first | rfl | (exfalso; omega)
  · rw [if_neg hg]
    rw [scalar_functor_apply]
    rw [run_chunks_apply op expr (fun s a b => scalar_functor op unroll s expr a b)
      (fun s a b k => scalar_functor_apply op unroll s expr a b k) result (n / threads)
      (threads - 1) j]
    have h1 : (threads - 1) * (n / threads) + n / threads = threads * (n / threads) := by
      have h2 : threads - 1 + 1 = threads := by omega
      calc (threads - 1) * (n / threads) + n / threads
          = (threads - 1 + 1) * (n / threads) := by rw [Nat.succ_mul]
        _ = threads * (n / threads) := by rw [h2]
    have h3 : threads * (n / threads) ≤ n := by
      rw [Nat.mul_comm]
      exact Nat.div_mul_le_self n threads
    set batch := n / threads with hb
    clear_value batch
    split_ifs <;> first | rfl | (exfalso; omega)

theorem parallel_vectorized_evaluate_apply {α : Type} (op : α → α → α) (cfg : VecCfg)
    (addr threads threshold : Nat) (expr result : Nat → α) (n j : Nat) :
    parallel_vectorized_evaluate op cfg addr threads threshold expr result n j =
      if j < n then op (result j) (expr j) else result j := by
  simp only [parallel_vectorized_evaluate]
  by_cases hg : n < threshold ∨ threads < 2
  · rw [if_pos hg, vectorized_functor_apply]
    split_ifs <;> first | rfl | (exfalso; omega)
  · rw [if_neg hg]
    rw [vectorized_functor_apply]
    rw [run_chunks_apply op expr (fun s a b => vectorized_functor op cfg addr s expr a b)
      (fun s a b k => vectorized_functor_apply op cfg addr s expr a b k) result (n / threads)
      (threads - 1) j]
    have h1 : (threads - 1) * (n / threads) + n / threads = threads * (n / threads) := by
      have h2 : threads - 1 + 1 = threads := by omega
      calc (threads - 1) * (n / threads) + n / threads
          = (threads - 1 + 1) * (n / threads) := by rw [Nat.succ_mul]
        _ = threads * (n / threads) := by rw [h2]
    have h3 : threads * (n / threads) ≤ n := by
      rw [Nat.mul_comm]
      exact Nat.div_mul_le_self n threads
    set batch := n / threads with hb
    clear_value batch
    split_ifs <;> first | rfl | (exfalso; omega)

theorem assign_loop_to_temp_apply {α : Type} (expr : (Nat → α) → Nat → α) (σ : Nat → α)
    (τ : Nat → α) (i count j : Nat) :
    assign_loop_to_temp expr σ τ i count j =
      if i ≤ j ∧ j < i + count then expr σ j else τ j := by
  induction count generalizing τ i with
  | zero =>
    simp only [assign_loop_to_temp]
    rw [if_neg (by omega)]
  | succ k ih =>
    simp only [assign_loop_to_temp]
    rw [ih]
    by_cases hj : j = i
    · subst hj
      rw [if_neg (by omega), if_pos (by omega)]
      simp [upd]
    · simp only [upd, if_neg hj]
      split_ifs <;> first | rfl | (exfalso; omega)

theorem chunk_end_le (n threads t : Nat) (ht : t < threads) :
    chunk_end n threads t ≤ n := by
  simp only [chunk_end]
  split_ifs with h
  · exact Nat.le_refl n
  · have h1 : t + 1 ≤ threads := ht
    have h2 : (t + 1) * (n / threads) ≤ threads * (n / threads) :=
      Nat.mul_le_mul_right (n / threads) h1
    have h3 : threads * (n / threads) ≤ n := by
      rw [Nat.mul_comm]
      exact Nat.div_mul_le_self n threads
    omega

theorem chunk_disjoint_aux (n threads t u : Nat) (htu : t < u) (hu : u < threads) :
    chunk_end n threads t ≤ chunk_start n threads u := by
  simp only [chunk_end, chunk_start]
  split_ifs with h
  · omega
  · have h1 : t + 1 ≤ u := htu
    exact Nat.mul_le_mul_right (n / threads) h1

/-- Claim C6: for a fixed expression and destination of matching size, every
execution strategy (standard, fast, direct, vectorized, parallel,
parallel_vectorized) produces the same destination contents
element-for-element — each equals the elementwise specification
`result[j] = expr[j]` for `j < n` — and the unrolled variants (scalar ×4 and
vector ×4) equal their non-unrolled counterparts. -/
theorem claim_C6_strategy_independence {α : Type} (unroll : Bool) (cfg : VecCfg)
    (addr threads threshold : Nat) (expr result : Nat → α) (n j : Nat) :
    standard_assign_evaluate expr result n j = (if j < n then expr j else result j)
  ∧ fast_assign_evaluate expr result n j = (if j < n then expr j else result j)
  ∧ direct_assign_evaluate unroll expr result n j = (if j < n then expr j else result j)
  ∧ vectorized_assign_evaluate cfg addr expr result n j = (if j < n then expr j else result j)
  ∧ parallel_assign_evaluate unroll threads threshold expr result n j =
      (if j < n then expr j else result j)
  ∧ parallel_vectorized_assign_evaluate cfg addr threads threshold expr result n j =
      (if j < n then expr j else result j)
  ∧ direct_assign_evaluate true expr result n j = direct_assign_evaluate false expr result n j
  ∧ vectorized_assign_evaluate ⟨cfg.lanes, cfg.esz, cfg.algn, true⟩ addr expr result n j =
      vectorized_assign_evaluate ⟨cfg.lanes, cfg.esz, cfg.algn, false⟩ addr expr result n j := by
  have h1 : standard_assign_evaluate expr result n j = (if j < n then expr j else result j) := by
    simp only [standard_assign_evaluate, standard_evaluate]
    rw [updRange_apply]
    simp only [setv]
    split_ifs <;> first | rfl | (exfalso; omega)
  have h2 : fast_assign_evaluate expr result n j = (if j < n then expr j else result j) := by
    simp only [fast_assign_evaluate]
    rw [updRange_apply]
    simp only [setv]
    split_ifs <;> first | rfl | (exfalso; omega)
  have h3 : ∀ u : Bool,
      direct_assign_evaluate u expr result n j = (if j < n then expr j else result j) := by
    intro u
    simp only [direct_assign_evaluate, direct_evaluate]
    rw [scalar_functor_apply]
    simp only [setv]
    split_ifs <;> first | rfl | (exfalso; omega)
  have h4 : ∀ c : VecCfg,
      vectorized_assign_evaluate c addr expr result n j = (if j < n then expr j else result j) := by
    intro c
    simp only [vectorized_assign_evaluate, vectorized_evaluate]
    rw [vectorized_functor_apply]
    simp only [setv]
    split_ifs <;> first | rfl | (exfalso; omega)
  have h5 : parallel_assign_evaluate unroll threads threshold expr result n j =
      (if j < n then expr j else result j) := by
    simp only [parallel_assign_evaluate]
    rw [parallel_evaluate_apply]
    simp only [setv]
  have h6 : parallel_vectorized_assign_evaluate cfg addr threads threshold expr result n j =
      (if j < n then expr j else result j) := by
    simp only [parallel_vectorized_assign_evaluate]
    rw [parallel_vectorized_evaluate_apply]
    simp only [setv]
  exact ⟨h1, h2, h3 unroll, h4 cfg, h5, h6, (h3 true).trans (h3 false).symm,
    (h4 ⟨cfg.lanes, cfg.esz, cfg.algn, true⟩).trans (h4 ⟨cfg.lanes, cfg.esz, cfg.algn, false⟩).symm⟩

/-- Claim C7: for every expression and destination of equal size `n`, the
compound assignment (`add_evaluate` with `op` the element addition, and
likewise each compound operator) leaves `result[j] = op result₀[j] expr[j]`
for `j < n`, under every strategy that can execute it (standard, direct,
parallel, vectorized, parallel_vectorized). -/
theorem claim_C7_compound_equivalence {α : Type} (op : α → α → α) (unroll : Bool)
    (cfg : VecCfg) (addr threads threshold : Nat) (expr result : Nat → α) (n j : Nat) :
    standard_evaluate op expr result n j = (if j < n then op (result j) (expr j) else result j)
  ∧ direct_evaluate op unroll expr result n j =
      (if j < n then op (result j) (expr j) else result j)
  ∧ parallel_evaluate op unroll threads threshold expr result n j =
      (if j < n then op (result j) (expr j) else result j)
  ∧ vectorized_evaluate op cfg addr expr result n j =
      (if j < n then op (result j) (expr j) else result j)
  ∧ parallel_vectorized_evaluate op cfg addr threads threshold expr result n j =
      (if j < n then op (result j) (expr j) else result j) := by
  refine ⟨?_, ?_, ?_, ?_, ?_⟩
  · simp only [standard_evaluate]
    rw [updRange_apply]
    split_ifs <;> first | rfl | (exfalso; omega)
  · simp only [direct_evaluate]
    rw [scalar_functor_apply]
    split_ifs <;> first | rfl | (exfalso; omega)
  · rw [parallel_evaluate_apply]
  · simp only [vectorized_evaluate]
    rw [vectorized_functor_apply]
    split_ifs <;> first | rfl | (exfalso; omega)
  · rw [parallel_vectorized_evaluate_apply]

/-- Claim C4 counterexample: with total size 4, exactly equal to the parallel
threshold 4, and 2 configured workers, the evaluator takes the multi-threaded
path (the guard `n < parallel_threshold || threads < 2` is false) even though
the element count does not strictly exceed the threshold. -/
theorem claim_C4_counterexample : uses_parallel 4 2 4 = true ∧ ¬(4 < 4) := by
  constructor
  · decide
  · decide

/-- Claim C4 as amended: the multi-threaded path is chosen exactly when the
element count is at least (not strictly above) the threshold and at least two
workers are configured; in every case, the parallel strategies produce the same
destination contents as their single-threaded counterparts (direct,
vectorized). -/
theorem claim_C4_parallel_guard {α : Type} (unroll : Bool) (cfg : VecCfg)
    (addr threads threshold : Nat) (expr result : Nat → α) (n j : Nat) :
    (uses_parallel n threads threshold = true ↔ threshold ≤ n ∧ 2 ≤ threads)
  ∧ parallel_assign_evaluate unroll threads threshold expr result n j =
      direct_assign_evaluate unroll expr result n j
  ∧ parallel_vectorized_assign_evaluate cfg addr threads threshold expr result n j =
      vectorized_assign_evaluate cfg addr expr result n j := by
  refine ⟨?_, ?_, ?_⟩
  · simp only [uses_parallel]
    split_ifs with hg
    · constructor
      · intro hh
        exact absurd hh (by decide)
      · intro hx
        exfalso
        omega
    · push_neg at hg
      constructor
      · intro _
        omega
      · intro _
        rfl
  · simp only [parallel_assign_evaluate, direct_assign_evaluate, direct_evaluate]
    rw [parallel_evaluate_apply, scalar_functor_apply]
    split_ifs <;> first | rfl | (exfalso; omega)
  · simp only [parallel_vectorized_assign_evaluate, vectorized_assign_evaluate,
      vectorized_evaluate]
    rw [parallel_vectorized_evaluate_apply, vectorized_functor_apply]
    split_ifs <;> first | rfl | (exfalso; omega)

/-- Claim C2, evaluated at the failing input: element size 4 bytes, alignment
16 bytes, lane width 4, buffer base address 0 (aligned), chunk `[1, 9)` — so
the first destination write sits at byte offset 4.  The peel loop processes
`u_bytes / esz = 4 / 4 = 1` element, the main loop is entered (7 elements ≥ one
lane remain) but the post-peel write pointer sits at byte 8, which is NOT
16-byte aligned, so the unaligned main loop runs; peeling 3 elements (write
pointer at byte 16) would have aligned it, as the last conjunct shows. -/
theorem claim_C2_peel_does_not_align :
    peel_loop ⟨4, 4, 16, false⟩ 0 1 8 = 1
  ∧ (vec_phases ⟨4, 4, 16, false⟩ 0 1 9).hasMain = true
  ∧ (vec_phases ⟨4, 4, 16, false⟩ 0 1 9).aligned = false
  ∧ main_aligned ⟨4, 4, 16, false⟩ 0 (1 + 3) = true := by
  decide

/-- Claim C9: for two dense containers with contiguous memory, `alias` is true
exactly when the half-open ranges `[memory_start, memory_end)` overlap (share
at least one address), and consequently the test is symmetric.  The
`memory_alias` helper is modelled from the spec (overlap test). -/
theorem claim_C9_alias_iff_overlap (a b : DenseStorage) :
    dense_alias a b = dense_alias b a
  ∧ (dense_alias a b = true ↔
      ∃ x, (a.start ≤ x ∧ x < a.start + a.size) ∧ (b.start ≤ x ∧ x < b.start + b.size)) := by
  constructor
  · simp only [dense_alias, memory_alias]
    rw [decide_eq_decide]
    omega
  · simp only [dense_alias, memory_alias, decide_eq_true_eq]
    constructor
    · intro h
      refine ⟨max a.start b.start, ⟨?_, ?_⟩, ?_, ?_⟩ <;> omega
    · rintro ⟨x, ⟨h1, h2⟩, h3, h4⟩
      omega

/-- Claim C10: if the byte misalignment of the chunk's first destination write
is nonzero but smaller than the element size or not a multiple of it, the peel
loop processes zero elements, and (when at least one full lane remains) the
whole main phase runs with unaligned stores. -/
theorem claim_C10_no_peel_unaligned_main (cfg : VecCfg) (addr first last : Nat)
    (h0 : (addr + cfg.esz * first) % cfg.algn ≠ 0)
    (h1 : (addr + cfg.esz * first) % cfg.algn < cfg.esz
          ∨ (addr + cfg.esz * first) % cfg.algn % cfg.esz ≠ 0) :
    peel_loop cfg addr first (last - first) = 0
  ∧ (cfg.lanes ≤ last - first →
      (vec_phases cfg addr first last).hasMain = true
      ∧ ran_unaligned (vec_phases cfg addr first last) = true
      ∧ ran_aligned (vec_phases cfg addr first last) = false) := by
  have hp0 : peel_loop cfg addr first (last - first) = 0 := by
    simp only [peel_loop]
    rw [if_neg]
    rintro ⟨ha, hb⟩
    rcases h1 with h | h
    · omega
    · exact h hb
  refine ⟨hp0, fun hlane => ?_⟩
  have hal : main_aligned cfg addr first = false := by
    simp only [main_aligned]
    exact decide_eq_false h0
  have hph : vec_phases cfg addr first last =
      ⟨0, first + 0, main_loop_end cfg (first + 0) last, true,
        main_aligned cfg addr (first + 0)⟩ := by
    simp only [vec_phases, hp0]
    rw [if_pos (by omega)]
  rw [hph]
  refine ⟨rfl, ?_, ?_⟩
  · simp [ran_unaligned, hal]
  · simp [ran_aligned, hal]

/-- Witness for claim C10 at a concrete input: base address 2 (misaligned by 2
bytes, less than the 4-byte element size), chunk `[0, 8)`, lane width 4. -/
theorem claim_C10_witness :
    ((2 + 4 * 0) % 16 ≠ 0)
  ∧ (peel_loop ⟨4, 4, 16, false⟩ 2 0 (8 - 0) = 0
     ∧ (4 ≤ 8 - 0 →
         (vec_phases ⟨4, 4, 16, false⟩ 2 0 8).hasMain = true
         ∧ ran_unaligned (vec_phases ⟨4, 4, 16, false⟩ 2 0 8) = true
         ∧ ran_aligned (vec_phases ⟨4, 4, 16, false⟩ 2 0 8) = false)) :=
  ⟨by decide,
    claim_C10_no_peel_unaligned_main ⟨4, 4, 16, false⟩ 2 0 8 (by decide) (Or.inl (by decide))⟩

/-- Claim C1: when the expression is not linear and aliases the result, the
evaluator materializes through a temporary of the result's type, and the final
result equals the specification "evaluate the expression into a freshly
allocated temporary (reading the result's original contents) and copy it into
the result"; in particular `assign(transpose(R), R)` for a square row-major
`N × N` matrix stores the mathematically correct transpose
`R(r, c) = R₀(c, r)` of the original contents. -/
theorem claim_C1_alias_materialization {α : Type} (expr : (Nat → α) → Nat → α) (σ : Nat → α)
    (n j N r c : Nat) (hr : r < N) (hc : c < N) :
    assign_evaluate false true expr σ n j = fresh_temp_spec expr σ n j
  ∧ assign_evaluate false true (transpose_read_flat N) σ (N * N) (r * N + c) = σ (c * N + r) := by
  have key : ∀ (e : (Nat → α) → Nat → α) (m k : Nat),
      assign_evaluate false true e σ m k = if k < m then e σ k else σ k := by
    intro e m k
    simp only [assign_evaluate, Bool.not_false, Bool.true_and, eq_self_iff_true, if_true]
    rw [updRange_apply, assign_loop_to_temp_apply]
    simp only [setv]
    split_ifs <;> first | rfl | (exfalso; omega)
  constructor
  · rw [key expr n j]
    rfl
  · rw [key (transpose_read_flat N) (N * N) (r * N + c)]
    have hN : 0 < N := by omega
    have hlt : r * N + c < N * N := by
      have h1 : r + 1 ≤ N := hr
      calc r * N + c < r * N + N := by omega
        _ = (r + 1) * N := (Nat.succ_mul r N).symm
        _ ≤ N * N := Nat.mul_le_mul_right N h1
    rw [if_pos hlt]
    simp only [transpose_read_flat]
    have hmod : (r * N + c) % N = c := by
      rw [Nat.mul_comm r N, Nat.mul_add_mod, Nat.mod_eq_of_lt hc]
    have hdiv : (r * N + c) / N = r := by
      rw [Nat.mul_comm r N, Nat.mul_add_div hN, Nat.div_eq_of_lt hc, Nat.add_zero]
    rw [hmod, hdiv]

/-- Witness for claim C1 on a concrete 3×3 transpose-in-place: entry
`(r, c) = (1, 2)` of the final result holds the original entry `(2, 1)`. -/
theorem claim_C1_witness :
    (1 < 3 ∧ 2 < 3)
  ∧ (assign_evaluate false true (transpose_read_flat 3) (fun i => (i : Nat)) 9 5 =
       fresh_temp_spec (transpose_read_flat 3) (fun i => (i : Nat)) 9 5
     ∧ assign_evaluate false true (transpose_read_flat 3) (fun i => (i : Nat)) 9 (1 * 3 + 2) =
       (fun i => (i : Nat)) (2 * 3 + 1)) :=
  ⟨⟨by decide, by decide⟩,
    claim_C1_alias_materialization (transpose_read_flat 3) (fun i => (i : Nat)) 9 5 3 1 2
      (by decide) (by decide)⟩

/-- Claim C3: for total size `n` and `threads ≥ 1` workers, the parallel
partition consists of `threads` contiguous chunks with
`chunk t = [t * (n/threads), (t+1) * (n/threads))` for `t < threads - 1` and
the final chunk `[(threads-1) * (n/threads), n)`; the chunks are pairwise
disjoint and their union is exactly `[0, n)` (here exhibited by the owner
function `chunk_index`). -/
theorem claim_C3_partition (n threads t u j : Nat) (hth : 1 ≤ threads) (ht : t < threads)
    (hu : u < threads) (htu : t ≠ u) :
    (t + 1 < threads → chunk_start n threads t = t * (n / threads)
        ∧ chunk_end n threads t = (t + 1) * (n / threads))
  ∧ chunk_start n threads (threads - 1) = (threads - 1) * (n / threads)
  ∧ chunk_end n threads (threads - 1) = n
  ∧ ¬(in_chunk n threads t j ∧ in_chunk n threads u j)
  ∧ (in_chunk n threads t j → j < n)
  ∧ (j < n → chunk_index n threads j < threads
      ∧ in_chunk n threads (chunk_index n threads j) j) := by
  refine ⟨?_, rfl, ?_, ?_, ?_, ?_⟩
  · intro h
    refine ⟨rfl, ?_⟩
    simp only [chunk_end]
    rw [if_neg (by omega)]
  · simp only [chunk_end]
    simp
  · rintro ⟨⟨ha1, ha2⟩, hb1, hb2⟩
    rcases Nat.lt_or_ge t u with hlt | hge
    · have := chunk_disjoint_aux n threads t u hlt hu
      omega
    · have hlt2 : u < t := by omega
      have := chunk_disjoint_aux n threads u t hlt2 ht
      omega
  · rintro ⟨h1, h2⟩
    have := chunk_end_le n threads t ht
    omega
  · intro hj
    simp only [chunk_index]
    by_cases hb : n / threads = 0
    · rw [if_pos (Or.inl hb)]
      refine ⟨by omega, ?_, ?_⟩
      · simp only [chunk_start]
        rw [hb, Nat.mul_zero]
        omega
      · simp only [chunk_end]
        simp only [if_pos trivial]
        simpa using hj
    · by_cases hd : threads - 1 ≤ j / (n / threads)
      · rw [if_pos (Or.inr hd)]
        refine ⟨by omega, ?_, ?_⟩
        · simp only [chunk_start]
          have h1 : (threads - 1) * (n / threads) ≤ j / (n / threads) * (n / threads) :=
            Nat.mul_le_mul_right (n / threads) hd
          have h2 : j / (n / threads) * (n / threads) ≤ j := Nat.div_mul_le_self j (n / threads)
          omega
        · simp only [chunk_end]
          simpa using hj
      · rw [if_neg (by push_neg; exact ⟨hb, by omega⟩)]
        refine ⟨by omega, ?_, ?_⟩
        · simp only [chunk_start]
          exact Nat.div_mul_le_self j (n / threads)
        · simp only [chunk_end]
          rw [if_neg (by omega)]
          have h1 := Nat.div_add_mod j (n / threads)
          have h2 : j % (n / threads) < n / threads :=
            Nat.mod_lt j (Nat.pos_of_ne_zero hb)
          rw [Nat.succ_mul]
          have h3 : n / threads * (j / (n / threads)) = j / (n / threads) * (n / threads) :=
            Nat.mul_comm _ _
          omega

/-- Witness for claim C3 at `n = 10`, `threads = 3` (chunks `[0,3)`, `[3,6)`,
`[6,10)`), chunks 0 and 2, index 7. -/
theorem claim_C3_witness :
    (1 ≤ 3 ∧ 0 < 3 ∧ 2 < 3 ∧ 0 ≠ 2)
  ∧ ((0 + 1 < 3 → chunk_start 10 3 0 = 0 * (10 / 3)
        ∧ chunk_end 10 3 0 = (0 + 1) * (10 / 3))
     ∧ chunk_start 10 3 (3 - 1) = (3 - 1) * (10 / 3)
     ∧ chunk_end 10 3 (3 - 1) = 10
     ∧ ¬(in_chunk 10 3 0 7 ∧ in_chunk 10 3 2 7)
     ∧ (in_chunk 10 3 0 7 → 7 < 10)
     ∧ (7 < 10 → chunk_index 10 3 7 < 3 ∧ in_chunk 10 3 (chunk_index 10 3 7) 7)) :=
  ⟨⟨by decide, by decide, by decide, by decide⟩,
    claim_C3_partition 10 3 0 2 7 (by decide) (by decide) (by decide) (by decide)⟩

/-- Claim C5 counterexample: on the chunk `[0, 1)` with lane width 4 the main
dispatch is never entered (no full lane remains), so neither the aligned nor
the unaligned main loop runs — it is not the case that exactly one of them
runs in every invocation. -/
theorem claim_C5_counterexample :
    (vec_phases ⟨4, 4, 16, false⟩ 0 0 1).hasMain = false
  ∧ ran_aligned (vec_phases ⟨4, 4, 16, false⟩ 0 0 1) = false
  ∧ ran_unaligned (vec_phases ⟨4, 4, 16, false⟩ 0 0 1) = false := by
  decide

/-- Claim C5 as amended: for every chunk `[first, last)` the three phase
windows — peel `[first, mainStart)`, main `[mainStart, mainEnd)` and remainder
`[mainEnd, last)` — are contiguous, pairwise disjoint and cover `[first, last)`
exactly (so each index is written by exactly one phase), no index outside the
chunk is written, and at most one of the aligned/unaligned main loops runs:
exactly one when the main dispatch is entered (a full lane remains after the
peel), neither otherwise. -/
theorem claim_C5_phase_partition {α : Type} (op : α → α → α) (cfg : VecCfg) (addr : Nat)
    (lhs rhs : Nat → α) (first last j : Nat) (h : first ≤ last) :
    first + (vec_phases cfg addr first last).peel = (vec_phases cfg addr first last).mainStart
  ∧ (vec_phases cfg addr first last).mainStart ≤ (vec_phases cfg addr first last).mainEnd
  ∧ (vec_phases cfg addr first last).mainEnd ≤ last
  ∧ ((first ≤ j ∧ j < last) ↔
      ((first ≤ j ∧ j < (vec_phases cfg addr first last).mainStart)
       ∨ ((vec_phases cfg addr first last).mainStart ≤ j
            ∧ j < (vec_phases cfg addr first last).mainEnd)
       ∨ ((vec_phases cfg addr first last).mainEnd ≤ j ∧ j < last)))
  ∧ ¬((first ≤ j ∧ j < (vec_phases cfg addr first last).mainStart)
       ∧ ((vec_phases cfg addr first last).mainStart ≤ j
            ∧ j < (vec_phases cfg addr first last).mainEnd))
  ∧ ¬(((vec_phases cfg addr first last).mainStart ≤ j
        ∧ j < (vec_phases cfg addr first last).mainEnd)
       ∧ ((vec_phases cfg addr first last).mainEnd ≤ j ∧ j < last))
  ∧ ¬((first ≤ j ∧ j < (vec_phases cfg addr first last).mainStart)
       ∧ ((vec_phases cfg addr first last).mainEnd ≤ j ∧ j < last))
  ∧ (¬(first ≤ j ∧ j < last) → vectorized_functor op cfg addr lhs rhs first last j = lhs j)
  ∧ ((vec_phases cfg addr first last).hasMain = true →
      ran_aligned (vec_phases cfg addr first last)
        = !ran_unaligned (vec_phases cfg addr first last))
  ∧ ((vec_phases cfg addr first last).hasMain = false →
      ran_aligned (vec_phases cfg addr first last) = false
      ∧ ran_unaligned (vec_phases cfg addr first last) = false) := by
  have hp := peel_loop_le cfg addr first (last - first)
  have huntouched : ¬(first ≤ j ∧ j < last) →
      vectorized_functor op cfg addr lhs rhs first last j = lhs j := by
    intro hout
    rw [vectorized_functor_apply, if_neg hout]
  by_cases hm : cfg.lanes ≤ (last - first) - peel_loop cfg addr first (last - first)
  · have hph : vec_phases cfg addr first last =
        ⟨peel_loop cfg addr first (last - first),
          first + peel_loop cfg addr first (last - first),
          main_loop_end cfg (first + peel_loop cfg addr first (last - first)) last, true,
          main_aligned cfg addr (first + peel_loop cfg addr first (last - first))⟩ := by
      simp only [vec_phases]
      rw [if_pos hm]
    rw [hph]
    dsimp only
    have hge := main_loop_end_ge cfg (first + peel_loop cfg addr first (last - first)) last
    have hle := main_loop_end_le cfg (first + peel_loop cfg addr first (last - first)) last
    refine ⟨rfl, by omega, by omega, by omega, by omega, by omega, by omega, huntouched, ?_, ?_⟩
    · intro _
      cases hal : main_aligned cfg addr (first + peel_loop cfg addr first (last - first)) <;>
        simp [ran_aligned, ran_unaligned, hal]
    · intro habs
      simp at habs
  · have hph : vec_phases cfg addr first last =
        ⟨peel_loop cfg addr first (last - first),
          first + peel_loop cfg addr first (last - first),
          first + peel_loop cfg addr first (last - first), false,
          main_aligned cfg addr (first + peel_loop cfg addr first (last - first))⟩ := by
      simp only [vec_phases]
      rw [if_neg hm]
    rw [hph]
    dsimp only
    refine ⟨rfl, by omega, by omega, by omega, by omega, by omega, by omega, huntouched, ?_, ?_⟩
    · intro habs
      simp at habs
    · intro _
      simp [ran_aligned, ran_unaligned]

/-- Witness for claim C5 on the chunk `[0, 5)` (aligned base, lane width 4:
peel 0, main `[0, 4)`, remainder `[4, 5)`), at index 1. -/
theorem claim_C5_witness :
    ((0 : Nat) ≤ 5)
  ∧ (0 + (vec_phases ⟨4, 4, 16, false⟩ 0 0 5).peel = (vec_phases ⟨4, 4, 16, false⟩ 0 0 5).mainStart
  ∧ (vec_phases ⟨4, 4, 16, false⟩ 0 0 5).mainStart ≤ (vec_phases ⟨4, 4, 16, false⟩ 0 0 5).mainEnd
  ∧ (vec_phases ⟨4, 4, 16, false⟩ 0 0 5).mainEnd ≤ 5
  ∧ ((0 ≤ 1 ∧ 1 < 5) ↔
      ((0 ≤ 1 ∧ 1 < (vec_phases ⟨4, 4, 16, false⟩ 0 0 5).mainStart)
       ∨ ((vec_phases ⟨4, 4, 16, false⟩ 0 0 5).mainStart ≤ 1
            ∧ 1 < (vec_phases ⟨4, 4, 16, false⟩ 0 0 5).mainEnd)
       ∨ ((vec_phases ⟨4, 4, 16, false⟩ 0 0 5).mainEnd ≤ 1 ∧ 1 < 5)))
  ∧ ¬((0 ≤ 1 ∧ 1 < (vec_phases ⟨4, 4, 16, false⟩ 0 0 5).mainStart)
       ∧ ((vec_phases ⟨4, 4, 16, false⟩ 0 0 5).mainStart ≤ 1
            ∧ 1 < (vec_phases ⟨4, 4, 16, false⟩ 0 0 5).mainEnd))
  ∧ ¬(((vec_phases ⟨4, 4, 16, false⟩ 0 0 5).mainStart ≤ 1
        ∧ 1 < (vec_phases ⟨4, 4, 16, false⟩ 0 0 5).mainEnd)
       ∧ ((vec_phases ⟨4, 4, 16, false⟩ 0 0 5).mainEnd ≤ 1 ∧ 1 < 5))
  ∧ ¬((0 ≤ 1 ∧ 1 < (vec_phases ⟨4, 4, 16, false⟩ 0 0 5).mainStart)
       ∧ ((vec_phases ⟨4, 4, 16, false⟩ 0 0 5).mainEnd ≤ 1 ∧ 1 < 5))
  ∧ (¬((0 : Nat) ≤ 1 ∧ 1 < 5) →
      vectorized_functor setv ⟨4, 4, 16, false⟩ 0 (fun _ => (0 : Nat)) (fun k => k) 0 5 1
        = (fun _ => (0 : Nat)) 1)
  ∧ ((vec_phases ⟨4, 4, 16, false⟩ 0 0 5).hasMain = true →
      ran_aligned (vec_phases ⟨4, 4, 16, false⟩ 0 0 5)
        = !ran_unaligned (vec_phases ⟨4, 4, 16, false⟩ 0 0 5))
  ∧ ((vec_phases ⟨4, 4, 16, false⟩ 0 0 5).hasMain = false →
      ran_aligned (vec_phases ⟨4, 4, 16, false⟩ 0 0 5) = false
      ∧ ran_unaligned (vec_phases ⟨4, 4, 16, false⟩ 0 0 5) = false)) :=
  ⟨by decide,
    claim_C5_phase_partition setv ⟨4, 4, 16, false⟩ 0 (fun _ => (0 : Nat)) (fun k => k) 0 5 1
      (by decide)⟩

/-- Claim C8: `ensure_cpu_up_to_date` is idempotent — a second call without an
intervening device mutation performs no transfer and changes no state; when the
host copy is already fresh the call copies nothing and changes nothing; when it
is not fresh (device fresh and allocated, the only states the source admits)
one device-to-host transfer runs, the host receives the device contents, and
the state becomes Both (host flag set, device flag still set). -/
theorem claim_C8_ensure_host (h : GpuMemoryHandler Nat) (g : Nat → Nat) (cpu : Nat → Nat)
    (n j : Nat) :
    (h.cpuUpToDate = true → ensure_cpu_up_to_date h cpu n = ⟨h, cpu, 0⟩)
  ∧ (h.cpuUpToDate = false → h.gpuMemory = some g → h.gpuUpToDate = true →
      ((ensure_cpu_up_to_date h cpu n).transfers = 1
       ∧ (ensure_cpu_up_to_date h cpu n).handler.cpuUpToDate = true
       ∧ (ensure_cpu_up_to_date h cpu n).handler.gpuUpToDate = true
       ∧ (j < n → (ensure_cpu_up_to_date h cpu n).cpu j = g j)))
  ∧ ensure_cpu_up_to_date (ensure_cpu_up_to_date h cpu n).handler
      ((ensure_cpu_up_to_date h cpu n).cpu) n
      = ⟨(ensure_cpu_up_to_date h cpu n).handler, (ensure_cpu_up_to_date h cpu n).cpu, 0⟩ := by
  obtain ⟨mem, cf, gf⟩ := h
  refine ⟨?_, ?_, ?_⟩
  · intro hc
    subst hc
    simp [ensure_cpu_up_to_date]
  · intro hc hmem hg
    subst hc
    subst hg
    subst hmem
    simp only [ensure_cpu_up_to_date]
    refine ⟨rfl, rfl, rfl, ?_⟩
    intro hj
    simp [hj]
  · cases cf
    · cases mem
      · simp [ensure_cpu_up_to_date]
      · simp [ensure_cpu_up_to_date]
    · simp [ensure_cpu_up_to_date]

/-- Witness for claim C8 at a concrete handler (device allocated and fresh,
host stale), host size 4, index 2. -/
theorem claim_C8_witness :
    ((⟨some (fun _ => 7), false, true⟩ : GpuMemoryHandler Nat).cpuUpToDate = false)
  ∧ (((⟨some (fun _ => 7), false, true⟩ : GpuMemoryHandler Nat).cpuUpToDate = true →
       ensure_cpu_up_to_date (⟨some (fun _ => 7), false, true⟩ : GpuMemoryHandler Nat)
         (fun _ => 0) 4 = ⟨⟨some (fun _ => 7), false, true⟩, fun _ => 0, 0⟩)
  ∧ ((⟨some (fun _ => 7), false, true⟩ : GpuMemoryHandler Nat).cpuUpToDate = false →
      (⟨some (fun _ => 7), false, true⟩ : GpuMemoryHandler Nat).gpuMemory = some (fun _ => 7) →
      (⟨some (fun _ => 7), false, true⟩ : GpuMemoryHandler Nat).gpuUpToDate = true →
      ((ensure_cpu_up_to_date (⟨some (fun _ => 7), false, true⟩ : GpuMemoryHandler Nat)
          (fun _ => 0) 4).transfers = 1
       ∧ (ensure_cpu_up_to_date (⟨some (fun _ => 7), false, true⟩ : GpuMemoryHandler Nat)
          (fun _ => 0) 4).handler.cpuUpToDate = true
       ∧ (ensure_cpu_up_to_date (⟨some (fun _ => 7), false, true⟩ : GpuMemoryHandler Nat)
          (fun _ => 0) 4).handler.gpuUpToDate = true
       ∧ (2 < 4 → (ensure_cpu_up_to_date (⟨some (fun _ => 7), false, true⟩ : GpuMemoryHandler Nat)
          (fun _ => 0) 4).cpu 2 = (fun _ => (7 : Nat)) 2)))
  ∧ ensure_cpu_up_to_date
      (ensure_cpu_up_to_date (⟨some (fun _ => 7), false, true⟩ : GpuMemoryHandler Nat)
        (fun _ => 0) 4).handler
      ((ensure_cpu_up_to_date (⟨some (fun _ => 7), false, true⟩ : GpuMemoryHandler Nat)
        (fun _ => 0) 4).cpu) 4
      = ⟨(ensure_cpu_up_to_date (⟨some (fun _ => 7), false, true⟩ : GpuMemoryHandler Nat)
            (fun _ => 0) 4).handler,
          (ensure_cpu_up_to_date (⟨some (fun _ => 7), false, true⟩ : GpuMemoryHandler Nat)
            (fun _ => 0) 4).cpu, 0⟩) :=
  ⟨rfl,
    claim_C8_ensure_host ⟨some (fun _ => 7), false, true⟩ (fun _ => 7) (fun _ => 0) 4 2⟩

end EtlVerify
